import Mathlib

/-!
Verification development for the skyportal-dumps export pipeline.

The definitions below are a shallow embedding of the Python sources
`utils.py`, `dump_sources.py` and `dump_skyportal.py`:

* Python dicts with a fixed key set are modelled as Lean structures;
  dicts with a dynamic key set (the raw source records fed to
  `formattedSource`) are modelled as association lists `List (String × Val)`;
  Python's insertion-ordered dicts keyed by instrument id are modelled as
  association lists with unique keys.
* Python floats appearing only in comparisons (`mjd`, `mag`, ...) are
  modelled as `Int` / `Option Int`; `None` is `Option.none`.
* `requests` calls are modelled as an abstract page-fetch function
  `Nat → Nat × List α` (status code and decoded page items).
* `time.sleep(1)` is modelled by counting pauses.
* Exceptions (`KeyError`, `IndexError`) are modelled as `Option`/`Except`
  failure values.
-/

/-- Generic JSON-ish value, for records modelled as association lists. -/
inductive Val where
  | null : Val
  | str : String → Val
  | num : Int → Val
  | strs : List String → Val
  | nums : List Int → Val
deriving DecidableEq, Repr

/-- The field lists from the top of `utils.py`. -/
def source_fields : List String :=
  ["id", "ra", "dec", "origin", "alias", "group_ids", "redshift"]

def photometry_fields : List String :=
  ["mjd", "filter", "mag", "magerr", "magsys", "limiting_mag", "ra", "dec",
   "ra_unc", "dec_unc", "origin"]

/-! ## Stable insertion sort (model of Python's stable `list.sort`) -/

/-- Insert `p` after every element `q` with `le q p`; used left-to-right this
is a stable sort, matching Python's `list.sort`. -/
def insertLe {α : Type} (le : α → α → Bool) (p : α) : List α → List α
  | [] => [p]
  | q :: rest => if le q p then q :: insertLe le p rest else p :: q :: rest

/-- Stable sort by the boolean relation `le`. -/
def isortLe {α : Type} (le : α → α → Bool) (l : List α) : List α :=
  l.foldl (fun acc p => insertLe le p acc) []

theorem insertLe_perm {α : Type} (le : α → α → Bool) (p : α) (l : List α) :
    (insertLe le p l).Perm (p :: l) := by
  induction l with
  | nil => simp [insertLe]
  | cons q rest ih =>
    simp only [insertLe]
    by_cases h : le q p = true
    · simp only [h, if_true]
      exact ((ih.cons q).trans (List.Perm.swap p q rest))
    · simp [h]

theorem isortLe_perm {α : Type} (le : α → α → Bool) (l : List α) :
    (isortLe le l).Perm l := by
  suffices h : ∀ (l acc : List α),
      (l.foldl (fun acc p => insertLe le p acc) acc).Perm (acc ++ l) by
    simpa using h l []
  intro l
  induction l with
  | nil => simp
  | cons p rest ih =>
    intro acc
    simp only [List.foldl_cons]
    refine (ih (insertLe le p acc)).trans ?_
    refine (List.Perm.append_right rest (insertLe_perm le p acc)).trans ?_
    exact List.perm_middle.symm

theorem mem_insertLe {α : Type} {le : α → α → Bool} {x p : α} {l : List α} :
    x ∈ insertLe le p l ↔ x = p ∨ x ∈ l := by
  have := (insertLe_perm le p l).mem_iff (a := x)
  simpa using this

theorem insertLe_pairwise {α : Type} {le : α → α → Bool}
    (htot : ∀ a b, le a b = true ∨ le b a = true)
    (htrans : ∀ a b c, le a b = true → le b c = true → le a c = true)
    (p : α) {l : List α} (hl : l.Pairwise (fun a b => le a b = true)) :
    (insertLe le p l).Pairwise (fun a b => le a b = true) := by
  induction l with
  | nil => simp [insertLe]
  | cons q rest ih =>
    rcases List.pairwise_cons.mp hl with ⟨hq, hrest⟩
    by_cases h : le q p = true
    · simp only [insertLe, h, if_true]
      refine List.pairwise_cons.mpr ⟨?_, ih hrest⟩
      intro x hx
      rcases mem_insertLe.mp hx with rfl | hx
      · exact h
      · exact hq x hx
    · simp only [insertLe, h, if_false]
      have hpq : le p q = true := (htot p q).resolve_right (by simpa using h)
      refine List.pairwise_cons.mpr ⟨?_, hl⟩
      intro x hx
      rcases List.mem_cons.mp hx with rfl | hx
      · exact hpq
      · exact htrans p q x hpq (hq x hx)

theorem isortLe_pairwise {α : Type} {le : α → α → Bool}
    (htot : ∀ a b, le a b = true ∨ le b a = true)
    (htrans : ∀ a b c, le a b = true → le b c = true → le a c = true)
    (l : List α) :
    (isortLe le l).Pairwise (fun a b => le a b = true) := by
  suffices h : ∀ (l acc : List α), acc.Pairwise (fun a b => le a b = true) →
      (l.foldl (fun acc p => insertLe le p acc) acc).Pairwise
        (fun a b => le a b = true) by
    exact h l [] (by simp)
  intro l
  induction l with
  | nil => intro acc hacc; simpa using hacc
  | cons p rest ih =>
    intro acc hacc
    simp only [List.foldl_cons]
    exact ih _ (insertLe_pairwise htot htrans p hacc)

/-- Sort a list of group ids ascending (`group_ids.sort()` in the source). -/
def sortNat (l : List Nat) : List Nat := isortLe (fun a b => decide (a ≤ b)) l

theorem sortNat_sorted (l : List Nat) : (sortNat l).Sorted (· ≤ ·) := by
  have h := @isortLe_pairwise Nat (fun a b : Nat => decide (a ≤ b))
    (fun a b => by rcases Nat.le_total a b with h | h <;> simp [h])
    (fun a b c hab hbc => by
      simp only [decide_eq_true_eq] at *
      exact le_trans hab hbc) l
  exact h.imp (fun hab => by simpa using hab)

theorem sortNat_perm (l : List Nat) : (sortNat l).Perm l :=
  isortLe_perm _ l

/-- Sorting is invariant under permutation of the input: the partition key of
the grouper treats the group-membership set order-independently. -/
theorem sortNat_eq_of_perm {l l' : List Nat} (h : l.Perm l') :
    sortNat l = sortNat l' := by
  refine List.eq_of_perm_of_sorted ?_ (sortNat_sorted l) (sortNat_sorted l')
  exact (sortNat_perm l).trans (h.trans (sortNat_perm l').symm)

/-! ## Paginator (`get_all_sources_and_phot` / `get_all_gcnevents` loop) -/

/-- Result of one paginated-fetch run, with instrumentation: the final
`status_code` and accumulated `sources` as returned by the Python loop, plus
the number of page-fetch `calls` issued and rate-limit `pauses` taken. -/
structure PagOut (α : Type) where
  status_code : Nat
  sources : List α
  calls : Nat
  pauses : Nat
deriving DecidableEq, Repr

/-- The `while finished == False` pagination loop of
`get_all_sources_and_phot` (`utils.py` lines 798-824), fuel-indexed.
Status 200: extend and turn the page, finishing when the page is short;
status 500 and any other status: finish (the latter also prints an error).
After each iteration the rate-limit counter is advanced unless whitelisted:
`request_counter += 1; if request_counter > 10: sleep(1); request_counter = 0`. -/
def pagLoop {α : Type} (fetch : Nat → Nat × List α) (numPerPage : Nat)
    (whitelisted : Bool) :
    Nat → Nat → Nat → List α → Nat → Nat → Option (PagOut α)
  | 0, _, _, _, _, _ => none
  | fuel + 1, request_counter, pageNumber, sources, calls, pauses =>
    let status_code := (fetch pageNumber).1
    let data := (fetch pageNumber).2
    let finished : Bool :=
      if status_code = 200 then decide (data.length < numPerPage) else true
    let sources' : List α :=
      if status_code = 200 then
        (if sources.length = 0 then data else sources ++ data)
      else sources
    let pageNumber' : Nat :=
      if status_code = 200 then pageNumber + 1 else pageNumber
    let rc1 : Nat :=
      if whitelisted = false then request_counter + 1 else request_counter
    let paused : Bool := whitelisted = false && decide (rc1 > 10)
    let rc2 : Nat := if paused then 0 else rc1
    let pauses' : Nat := if paused then pauses + 1 else pauses
    if finished then some ⟨status_code, sources', calls + 1, pauses'⟩
    else pagLoop fetch numPerPage whitelisted fuel rc2 pageNumber' sources'
      (calls + 1) pauses'

/-- A mock catalog of `catalog.length` items served `N` at a time, always
with status 200: page `p` holds the items at indices `[(p-1)*N, p*N)`. -/
def mockFetch {α : Type} (catalog : List α) (N : Nat) (p : Nat) :
    Nat × List α :=
  (200, (catalog.drop ((p - 1) * N)).take N)


/-- Unfolding the loop body for a short 200 page: the loop finishes. -/
theorem pagLoop_succ_finish {α : Type} (fetch : Nat → Nat × List α)
    (N : Nat) (wl : Bool) (fuel rc p : Nat) (acc : List α)
    (calls pauses : Nat) (h200 : (fetch p).1 = 200)
    (hshort : ((fetch p).2).length < N) :
    pagLoop fetch N wl (fuel + 1) rc p acc calls pauses =
      some ⟨200, if acc.length = 0 then (fetch p).2 else acc ++ (fetch p).2,
            calls + 1,
            if wl = false && decide (rc + 1 > 10) then pauses + 1
            else pauses⟩ := by
  cases wl <;> simp [pagLoop, h200, hshort]

/-- Unfolding the loop body for a full 200 page: the loop recurses with the
page counter advanced and the rate-limit counter stepped. -/
theorem pagLoop_succ_next {α : Type} (fetch : Nat → Nat × List α)
    (N : Nat) (wl : Bool) (fuel rc p : Nat) (acc : List α)
    (calls pauses : Nat) (h200 : (fetch p).1 = 200)
    (hfull : ¬ ((fetch p).2).length < N) :
    pagLoop fetch N wl (fuel + 1) rc p acc calls pauses =
      pagLoop fetch N wl fuel
        (if wl = false && decide (rc + 1 > 10) then 0
         else if wl = false then rc + 1 else rc)
        (p + 1)
        (if acc.length = 0 then (fetch p).2 else acc ++ (fetch p).2)
        (calls + 1)
        (if wl = false && decide (rc + 1 > 10) then pauses + 1
         else pauses) := by
  cases wl <;> simp [pagLoop, h200, hfull]

/-- Driving the pagination loop over the mock catalog from page `p`: it
accumulates the whole catalog and issues one call per remaining page plus the
final short page. -/
theorem pagLoop_mock {α : Type} (catalog : List α) (N : Nat) (wl : Bool)
    (hN : 1 ≤ N) :
    ∀ (fuel p : Nat) (acc : List α) (calls pauses rc : Nat),
      1 ≤ p →
      acc = catalog.take ((p - 1) * N) →
      (p - 1) ≤ catalog.length / N →
      catalog.length / N + 1 - (p - 1) ≤ fuel →
      ∃ out, pagLoop (mockFetch catalog N) N wl fuel rc p acc calls pauses
          = some out ∧
        out.status_code = 200 ∧ out.sources = catalog ∧
        out.calls = calls + (catalog.length / N + 1 - (p - 1)) := by
  intro fuel
  induction fuel with
  | zero =>
    intro p acc calls pauses rc hp hacc hpd hfuel
    omega
  | succ fuel ih =>
    intro p acc calls pauses rc hp hacc hpd hfuel
    have h200 : ((mockFetch catalog N) p).1 = 200 := rfl
    have hdata : (((mockFetch catalog N) p).2).length =
        min N (catalog.length - (p - 1) * N) := by
      simp [mockFetch]
    have hsources' :
        (if acc.length = 0 then ((mockFetch catalog N) p).2
          else acc ++ ((mockFetch catalog N) p).2) =
        catalog.take ((p - 1) * N + N) := by
      have hcat : acc ++ ((mockFetch catalog N) p).2 =
          catalog.take ((p - 1) * N + N) := by
        rw [hacc, List.take_add]; rfl
      by_cases hnil : acc.length = 0
      · have hae : acc = [] := List.length_eq_zero.mp hnil
        rw [if_pos hnil, ← hcat, hae]; simp
      · rw [if_neg hnil, hcat]
    have hpN : (p - 1) * N + N = p * N := by
      have hp1 : p - 1 + 1 = p := by omega
      calc (p - 1) * N + N = (p - 1 + 1) * N := (Nat.succ_mul _ _).symm
        _ = p * N := by rw [hp1]
    by_cases hshort : (((mockFetch catalog N) p).2).length < N
    · -- short page: the loop finishes with this call
      have hlt : catalog.length - (p - 1) * N < N := by
        rw [hdata] at hshort; omega
      have hMlt : catalog.length < p * N := by omega
      have hdlt : catalog.length / N < p :=
        (Nat.div_lt_iff_lt_mul (by omega)).mpr hMlt
      have hall : catalog.take ((p - 1) * N + N) = catalog := by
        apply List.take_of_length_le; omega
      rw [pagLoop_succ_finish _ _ _ _ _ _ _ _ _ h200 hshort, hsources', hall]
      refine ⟨_, rfl, rfl, rfl, ?_⟩
      show calls + 1 = calls + (catalog.length / N + 1 - (p - 1))
      omega
    · -- full page: recurse on the next page number
      have hfull : (((mockFetch catalog N) p).2).length = N := by
        have hle : (((mockFetch catalog N) p).2).length ≤ N := by
          rw [hdata]; omega
        omega
      have hNle : N ≤ catalog.length - (p - 1) * N := by
        rw [hdata] at hfull; omega
      have hple : p * N ≤ catalog.length := by omega
      have hpd' : p ≤ catalog.length / N :=
        (Nat.le_div_iff_mul_le (by omega)).mpr hple
      rw [pagLoop_succ_next _ _ _ _ _ _ _ _ _ h200 hshort, hsources', hpN]
      obtain ⟨out, hrun, hst, hsrc, hcalls⟩ :=
        ih (p + 1) (catalog.take (p * N)) (calls + 1)
          (if wl = false && decide (rc + 1 > 10) then pauses + 1 else pauses)
          (if wl = false && decide (rc + 1 > 10) then 0
           else if wl = false then rc + 1 else rc)
          (by omega) (by simp) (by omega) (by omega)
      exact ⟨out, hrun, hst, hsrc, by omega⟩

theorem ceil_div_of_not_dvd {M N : Nat} (hN : 1 ≤ N) (h : ¬ N ∣ M) :
    (M + N - 1) / N = M / N + 1 := by
  have hmod := Nat.div_add_mod M N
  have hmodlt : M % N < N := Nat.mod_lt _ (by omega)
  have hmodne : M % N ≠ 0 := fun h0 => h (Nat.dvd_of_mod_eq_zero h0)
  have hrw : M + N - 1 = (M % N - 1) + N * (M / N + 1) := by
    have : N * (M / N + 1) = N * (M / N) + N := Nat.mul_succ _ _
    omega
  rw [hrw, Nat.add_mul_div_left _ _ (by omega : 0 < N),
    Nat.div_eq_of_lt (by omega)]
  exact Nat.zero_add _

/-- C1: for page size `N ≥ 1` and a mock catalog of `M` items served `N` at a
time with every page returning status 200, the pagination loop of
`get_all_sources_and_phot` accumulates exactly the `M` items in page order;
the number of page fetches is `ceil(M/N)` when `M` is not an exact multiple
of `N` (in particular exactly one call when `M < N`), and `ceil(M/N) + 1`
when `M` is a positive exact multiple of `N` (one extra short/empty trailing
page is needed to detect end-of-data). -/
theorem pagination_mock_catalog (catalog : List Nat) (N : Nat) (wl : Bool)
    (hN : 1 ≤ N) :
    ∃ out, pagLoop (mockFetch catalog N) N wl (catalog.length + 2) 0 1 [] 0 0
        = some out ∧
      out.sources = catalog ∧
      (¬ N ∣ catalog.length →
        out.calls = (catalog.length + N - 1) / N) ∧
      (N ∣ catalog.length → 0 < catalog.length →
        out.calls = catalog.length / N + 1) ∧
      (catalog.length < N → out.calls = 1) := by
  have hd : catalog.length / N ≤ catalog.length := Nat.div_le_self _ _
  obtain ⟨out, hrun, _, hsrc, hcalls⟩ :=
    pagLoop_mock catalog N wl hN (catalog.length + 2) 1 [] 0 0 0
      (le_refl 1) (by simp) (Nat.zero_le _)
      (Nat.add_le_add hd (by decide : (1 : Nat) ≤ 2))
  have hcalls' : out.calls = catalog.length / N + 1 := by simpa using hcalls
  refine ⟨out, hrun, hsrc, ?_, ?_, ?_⟩
  · intro hdvd
    rw [hcalls', ceil_div_of_not_dvd hN hdvd]
  · intro _ _
    exact hcalls'
  · intro hlt
    rw [hcalls', Nat.div_eq_of_lt hlt]

/-- Witness for C1: a 3-item catalog with page size 2 is fetched in
`ceil(3/2) = 2` calls and accumulates all items. -/
theorem pagination_mock_catalog_witness :
    1 ≤ 2 ∧
    ∃ out, pagLoop (mockFetch [10, 20, 30] 2) 2 false 5 0 1 [] 0 0
        = some out ∧
      out.sources = [10, 20, 30] ∧
      (¬ 2 ∣ 3 → out.calls = (3 + 2 - 1) / 2) ∧
      (2 ∣ 3 → 0 < 3 → out.calls = 3 / 2 + 1) ∧
      (3 < 2 → out.calls = 1) :=
  ⟨by decide, pagination_mock_catalog [10, 20, 30] 2 false (by decide)⟩

/-! ## Rate-limit pacing (`utils.py` lines 819-823 and 834-838) -/

/-- One qualifying request's effect on the pacing state
`(request_counter, pauses so far)`:
`request_counter += 1; if request_counter > 10: time.sleep(1);
request_counter = 0`, skipped entirely when whitelisted. -/
def paceStep (whitelisted : Bool) (state : Nat × Nat) : Nat × Nat :=
  if whitelisted = false then
    let request_counter := state.1 + 1
    if request_counter > 10 then (0, state.2 + 1)
    else (request_counter, state.2)
  else state

/-- Pacing state after `k` qualifying requests, starting from
`request_counter = 0` and no pauses. -/
def paceRun (whitelisted : Bool) : Nat → Nat × Nat
  | 0 => (0, 0)
  | k + 1 => paceStep whitelisted (paceRun whitelisted k)

/-- C2 counterexample: after 10 qualifying non-whitelisted requests the code
has paused 0 times, not `10 / 10 = 1` times as the claim states — the pause
fires on the 11th request (`request_counter > 10`), not the 10th. -/
theorem pacing_ten_requests_no_pause :
    (paceRun false 10).2 ≠ 10 / 10 := by decide

/-- C2 amended: with `whitelisted=false` the loop pauses exactly once per
**11** qualifying requests (the counter reaches 11, the pause fires and the
counter resets to 0), so after `k` requests `k / 11` pauses have occurred
and the counter holds `k % 11`; with `whitelisted=true` no pause ever
occurs. -/
theorem pacing_pauses_every_eleven (k : Nat) :
    (paceRun false k).1 = k % 11 ∧ (paceRun false k).2 = k / 11 ∧
    paceRun true k = (0, 0) := by
  induction k with
  | zero => exact ⟨rfl, rfl, rfl⟩
  | succ k ih =>
    obtain ⟨hrc, hp, hw⟩ := ih
    have hpair : paceRun false k = (k % 11, k / 11) := by
      rw [← hrc, ← hp]
    refine ⟨?_, ?_, by simp [paceRun, hw, paceStep]⟩
    · by_cases h : k % 11 + 1 > 10
      · have hstep : paceRun false (k + 1) = (0, k / 11 + 1) := by
          simp [paceRun, hpair, paceStep, h]
        rw [hstep]
        show 0 = (k + 1) % 11
        omega
      · have hstep : paceRun false (k + 1) = (k % 11 + 1, k / 11) := by
          simp [paceRun, hpair, paceStep, h]
        rw [hstep]
        show k % 11 + 1 = (k + 1) % 11
        omega
    · by_cases h : k % 11 + 1 > 10
      · have hstep : paceRun false (k + 1) = (0, k / 11 + 1) := by
          simp [paceRun, hpair, paceStep, h]
        rw [hstep]
        show k / 11 + 1 = (k + 1) / 11
        omega
      · have hstep : paceRun false (k + 1) = (k % 11 + 1, k / 11) := by
          simp [paceRun, hpair, paceStep, h]
        rw [hstep]
        show k / 11 = (k + 1) / 11
        omega

/-! ## Photometry records -/

/-- A raw photometry point as returned by the catalog API: the eleven
projected fields plus the instrument / group tags used for partitioning.
`groups` is a list of `(id, name)` pairs. -/
structure RawPhot where
  mjd : Int
  filter : String
  mag : Option Int
  magerr : Option Int
  magsys : Option String
  limiting_mag : Option Int
  ra : Option Int
  dec : Option Int
  ra_unc : Option Int
  dec_unc : Option Int
  origin : Option String
  instrument_id : Nat
  instrument_name : String
  groups : List (Nat × String)
deriving DecidableEq, Repr

/-- The projection of a photometry point onto `photometry_fields`
(the output of `formattedPhot`). -/
structure FormattedPhot where
  mjd : Int
  filter : String
  mag : Option Int
  magerr : Option Int
  magsys : Option String
  limiting_mag : Option Int
  ra : Option Int
  dec : Option Int
  ra_unc : Option Int
  dec_unc : Option Int
  origin : Option String
deriving DecidableEq, Repr

/-- `formattedPhot` (`utils.py` lines 857-868): keep only the fields in
`photometry_fields`. -/
def formattedPhot (photometry : RawPhot) : FormattedPhot :=
  { mjd := photometry.mjd
    filter := photometry.filter
    mag := photometry.mag
    magerr := photometry.magerr
    magsys := photometry.magsys
    limiting_mag := photometry.limiting_mag
    ra := photometry.ra
    dec := photometry.dec
    ra_unc := photometry.ra_unc
    dec_unc := photometry.dec_unc
    origin := photometry.origin }

/-- Sort photometry ascending by `mjd`
(`photometry.sort(key=lambda x: x["mjd"])`). -/
def sortByMjd (l : List FormattedPhot) : List FormattedPhot :=
  isortLe (fun a b => decide (a.mjd ≤ b.mjd)) l

theorem sortByMjd_sorted (l : List FormattedPhot) :
    (sortByMjd l).Pairwise (fun a b => a.mjd ≤ b.mjd) := by
  have h := @isortLe_pairwise FormattedPhot
    (fun a b : FormattedPhot => decide (a.mjd ≤ b.mjd))
    (fun a b => by rcases Int.le_total a.mjd b.mjd with h | h <;> simp [h])
    (fun a b c hab hbc => by
      simp only [decide_eq_true_eq] at *
      exact le_trans hab hbc) l
  exact h.imp (fun hab => by simpa using hab)

theorem sortByMjd_perm (l : List FormattedPhot) : (sortByMjd l).Perm l :=
  isortLe_perm _ l

/-! ## Photometry deduplication (`utils.py` lines 923-930) -/

/-- The duplicate test of the instrument-keyed grouper: `x` and `phot` are
duplicates when they agree on `mjd`, `mag`, `magerr`, `limiting_mag` and
`filter`. -/
def isDup (x phot : FormattedPhot) : Bool :=
  x.mjd == phot.mjd && x.mag == phot.mag && x.magerr == phot.magerr &&
    x.limiting_mag == phot.limiting_mag && x.filter == phot.filter

/-- The dedup loop: `temp_photometry = []; for phot in ...: if any(dup): skip
else append`. -/
def dedupLoop (temp_photometry : List FormattedPhot) :
    List FormattedPhot → List FormattedPhot
  | [] => temp_photometry
  | phot :: rest =>
    if temp_photometry.any (fun x => isDup x phot) then
      dedupLoop temp_photometry rest
    else dedupLoop (temp_photometry ++ [phot]) rest

/-- The dedup step applied to a partition's (sorted) photometry list. -/
def dedupPhot (l : List FormattedPhot) : List FormattedPhot :=
  dedupLoop [] l

/-- Modelled from the spec's words for comparison with `dedupPhot`: keep
each point and drop every later point agreeing with it on all five identity
fields ("two points agreeing on all five are considered the same observation
and only the first is kept"). -/
def dedupSpec : List FormattedPhot → List FormattedPhot
  | [] => []
  | phot :: rest =>
    phot :: dedupSpec (rest.filter (fun q => !(isDup phot q)))
termination_by l => l.length
decreasing_by
  simp only [List.length_cons]
  exact Nat.lt_succ_of_le (List.length_filter_le _ _)

theorem dedupLoop_eq (l : List FormattedPhot) :
    ∀ temp : List FormattedPhot,
      dedupLoop temp l =
        temp ++ dedupSpec (l.filter
          (fun p => !(temp.any (fun x => isDup x p)))) := by
  induction l with
  | nil => intro temp; simp [dedupLoop, dedupSpec]
  | cons phot rest ih =>
    intro temp
    by_cases h : temp.any (fun x => isDup x phot) = true
    · rw [dedupLoop, if_pos h, ih temp]
      have hfilter :
          (phot :: rest).filter (fun p => !(temp.any (fun x => isDup x p))) =
            rest.filter (fun p => !(temp.any (fun x => isDup x p))) := by
        rw [List.filter_cons]
        simp [h]
      rw [hfilter]
    · rw [dedupLoop, if_neg h, ih (temp ++ [phot])]
      have hkeep :
          (phot :: rest).filter (fun p => !(temp.any (fun x => isDup x p))) =
            phot :: rest.filter (fun p => !(temp.any (fun x => isDup x p))) := by
        rw [List.filter_cons]
        simp [h]
      rw [hkeep, dedupSpec, List.append_assoc, List.singleton_append]
      congr 2
      rw [List.filter_filter]
      congr 1
      apply List.filter_congr
      intro q _
      simp [List.any_append, List.any_cons, List.any_nil, Bool.not_or,
        Bool.and_comm]


theorem dedupPhot_eq_dedupSpec (l : List FormattedPhot) :
    dedupPhot l = dedupSpec l := by
  rw [dedupPhot, dedupLoop_eq]
  simp

theorem isDup_iff (a b : FormattedPhot) :
    isDup a b = true ↔ (a.mjd = b.mjd ∧ a.mag = b.mag ∧ a.magerr = b.magerr ∧
      a.limiting_mag = b.limiting_mag ∧ a.filter = b.filter) := by
  simp [isDup, and_assoc]

theorem isDup_symm (a b : FormattedPhot) : isDup a b = isDup b a := by
  cases hab : isDup a b <;> cases hba : isDup b a <;> try rfl
  · obtain ⟨h1, h2, h3, h4, h5⟩ := (isDup_iff b a).mp hba
    rw [← hab, (isDup_iff a b).mpr ⟨h1.symm, h2.symm, h3.symm, h4.symm, h5.symm⟩]
  · obtain ⟨h1, h2, h3, h4, h5⟩ := (isDup_iff a b).mp hab
    rw [← hba, (isDup_iff b a).mpr ⟨h1.symm, h2.symm, h3.symm, h4.symm, h5.symm⟩]

theorem mem_dedupSpec (x : FormattedPhot) :
    ∀ l : List FormattedPhot, x ∈ dedupSpec l → x ∈ l := by
  intro l
  induction l using dedupSpec.induct with
  | case1 => intro h; rw [dedupSpec] at h; exact h
  | case2 phot rest ih =>
    intro h
    rw [dedupSpec] at h
    rcases List.mem_cons.mp h with rfl | h
    · exact List.mem_cons_self _ _
    · exact List.mem_cons_of_mem _ (List.mem_of_mem_filter (ih h))

/-- The retained points of `dedupSpec` are pairwise non-duplicate: two points
that differ in any of the five identity fields are both retained, and no two
retained points agree on all five. -/
theorem dedupSpec_pairwise :
    ∀ l : List FormattedPhot,
      (dedupSpec l).Pairwise (fun a b => isDup a b = false) := by
  intro l
  induction l using dedupSpec.induct with
  | case1 => simp [dedupSpec]
  | case2 phot rest ih =>
    rw [dedupSpec]
    refine List.pairwise_cons.mpr ⟨?_, ih⟩
    intro x hx
    have hmem := mem_dedupSpec x _ hx
    have := List.of_mem_filter hmem
    simpa using this

/-- On a list with no duplicate pair, the dedup step is the identity. -/
theorem dedupSpec_of_pairwise :
    ∀ l : List FormattedPhot,
      l.Pairwise (fun a b => isDup a b = false) → dedupSpec l = l := by
  intro l
  induction l with
  | nil => intro _; rw [dedupSpec]
  | cons phot rest ih =>
    intro h
    rcases List.pairwise_cons.mp h with ⟨hphot, hrest⟩
    rw [dedupSpec]
    have hfilter : rest.filter (fun q => !(isDup phot q)) = rest := by
      apply List.filter_eq_self.mpr
      intro q hq
      simp [hphot q hq]
    rw [hfilter, ih hrest]

/-- C5: the dedup step of the photometry grouper is idempotent. -/
theorem dedup_idempotent (l : List FormattedPhot) :
    dedupPhot (dedupPhot l) = dedupPhot l := by
  rw [dedupPhot_eq_dedupSpec l, dedupPhot_eq_dedupSpec (dedupSpec l)]
  exact dedupSpec_of_pairwise _ (dedupSpec_pairwise l)

/-! ## The (instrument, group-set) grouper (`dump_sources.py` lines 307-346) -/

/-- One `by_group` entry: a group-membership key (sorted ids), the group
names recorded with it, and its accumulated photometry. -/
structure GroupEntry where
  group_ids : List Nat
  groups : List String
  photometry : List FormattedPhot
deriving DecidableEq, Repr

/-- One `photometry_dict[instrument_id]` entry of the group-set variant. -/
structure InstrEntryG where
  instrument_name : String
  by_group : List GroupEntry
deriving DecidableEq, Repr

/-- Append a formatted point to the first `by_group` entry whose key equals
`gids` (the `for d in ...: if d["group_ids"] == group_ids: append; break`
loop). -/
def addToFirstMatch (gids : List Nat) (fp : FormattedPhot) :
    List GroupEntry → List GroupEntry
  | [] => []
  | g :: rest =>
    if g.group_ids = gids then
      { g with photometry := g.photometry ++ [fp] } :: rest
    else g :: addToFirstMatch gids fp rest

/-- Add one point to an instrument entry: if no `by_group` entry carries the
point's (sorted) group-id key, append a fresh entry; otherwise append the
point to the first matching entry. -/
def addPhotEntry (e : InstrEntryG) (gids : List Nat) (names : List String)
    (fp : FormattedPhot) : InstrEntryG :=
  if e.by_group.any (fun g => g.group_ids = gids) then
    { e with by_group := addToFirstMatch gids fp e.by_group }
  else
    { e with by_group := e.by_group ++ [⟨gids, names, [fp]⟩] }

/-- The partition key of a point: its instrument id paired with its sorted
group-id list. -/
def keyOf (phot : RawPhot) : Nat × List Nat :=
  (phot.instrument_id, sortNat (phot.groups.map Prod.fst))

/-- Insert one raw point into the insertion-ordered `photometry_dict`
(modelled as an association list keyed by instrument id): a missing
instrument key is created with an empty `by_group` before the group logic
runs. -/
def insertG (phot : RawPhot) : List (Nat × InstrEntryG) →
    List (Nat × InstrEntryG)
  | [] => [(phot.instrument_id,
      addPhotEntry ⟨phot.instrument_name, []⟩
        (sortNat (phot.groups.map Prod.fst)) (phot.groups.map Prod.snd)
        (formattedPhot phot))]
  | (k, e) :: rest =>
    if k = phot.instrument_id then
      (k, addPhotEntry e (sortNat (phot.groups.map Prod.fst))
        (phot.groups.map Prod.snd) (formattedPhot phot)) :: rest
    else (k, e) :: insertG phot rest

/-- Build the `photometry_dict` of the group-set variant from a source's
photometry list. -/
def buildDictG (pts : List RawPhot) : List (Nat × InstrEntryG) :=
  pts.foldl (fun d p => insertG p d) []

/-- The `(instrument_id, group_ids)` keys of the dictionary, in output
order: one per `by_group` entry. -/
def flatKeys : List (Nat × InstrEntryG) → List (Nat × List Nat)
  | [] => []
  | (k, e) :: rest => e.by_group.map (fun g => (k, g.group_ids)) ++ flatKeys rest

/-- Total number of points held in the dictionary. -/
def photCountG : List (Nat × InstrEntryG) → Nat
  | [] => 0
  | (_, e) :: rest =>
    (e.by_group.map (fun g => g.photometry.length)).sum + photCountG rest

/-- One output partition of the group-set variant, as materialized per
`by_group` entry: the CSV file name and the sorted point list written to it. -/
structure Partition where
  instrument_id : Nat
  instrument_name : String
  group_ids : List Nat
  photometry : List FormattedPhot
  filename : String
deriving DecidableEq, Repr

/-- `','.join([str(i) for i in group_ids])`. -/
def commaJoin (l : List Nat) : String :=
  String.intercalate "," (l.map (fun i => toString i))

/-- The per-partition output loop of the group-set variant: for each
instrument, for each `by_group` entry, sort the photometry ascending by
`mjd` and materialize it under
`{source_id}_{instrument_name}_{comma-joined group ids}.csv`. -/
def partitionsG (source_id : String) :
    List (Nat × InstrEntryG) → List Partition
  | [] => []
  | (k, e) :: rest =>
    e.by_group.map (fun g =>
      { instrument_id := k
        instrument_name := e.instrument_name
        group_ids := g.group_ids
        photometry := sortByMjd g.photometry
        filename := source_id ++ "_" ++ e.instrument_name ++ "_" ++
          commaJoin g.group_ids ++ ".csv" : Partition })
      ++ partitionsG source_id rest

theorem any_groupids_iff (bg : List GroupEntry) (gids : List Nat) :
    (bg.any (fun g => g.group_ids = gids)) = true ↔
      gids ∈ bg.map (fun g => g.group_ids) := by
  simp only [List.any_eq_true, decide_eq_true_eq, List.mem_map]

theorem addToFirstMatch_keys (gids : List Nat) (fp : FormattedPhot) :
    ∀ bg : List GroupEntry,
      (addToFirstMatch gids fp bg).map (fun g => g.group_ids) =
        bg.map (fun g => g.group_ids) := by
  intro bg
  induction bg with
  | nil => rfl
  | cons g rest ih =>
    rw [addToFirstMatch]
    by_cases h : g.group_ids = gids
    · rw [if_pos h]; simp [h]
    · rw [if_neg h]; simp [ih]

theorem addPhotEntry_keys (e : InstrEntryG) (gids : List Nat)
    (names : List String) (fp : FormattedPhot) :
    (addPhotEntry e gids names fp).by_group.map (fun g => g.group_ids) =
      if gids ∈ e.by_group.map (fun g => g.group_ids) then
        e.by_group.map (fun g => g.group_ids)
      else e.by_group.map (fun g => g.group_ids) ++ [gids] := by
  rw [addPhotEntry]
  by_cases h : (e.by_group.any (fun g => g.group_ids = gids)) = true
  · rw [if_pos h, if_pos ((any_groupids_iff _ _).mp h)]
    exact addToFirstMatch_keys gids fp e.by_group
  · rw [if_neg h, if_neg (fun hm => h ((any_groupids_iff _ _).mpr hm))]
    simp

theorem insertG_instrument_keys (phot : RawPhot) :
    ∀ d : List (Nat × InstrEntryG),
      (insertG phot d).map Prod.fst =
        if phot.instrument_id ∈ d.map Prod.fst then d.map Prod.fst
        else d.map Prod.fst ++ [phot.instrument_id] := by
  intro d
  induction d with
  | nil => simp [insertG]
  | cons ke rest ih =>
    obtain ⟨k, e⟩ := ke
    rw [insertG]
    by_cases h : k = phot.instrument_id
    · rw [if_pos h]
      simp [h]
    · rw [if_neg h]
      by_cases hmem : phot.instrument_id ∈ rest.map Prod.fst
      · simp only [List.map_cons, ih, if_pos hmem]
        rw [if_pos]
        simp [hmem]
      · have hne : phot.instrument_id ∉ k :: List.map Prod.fst rest := by
          simp only [List.mem_cons]
          rintro (hk | hr)
          · exact h hk.symm
          · exact hmem hr
        simp only [List.map_cons, ih, if_neg hmem]
        rw [if_neg hne]
        exact (List.cons_append _ _ _).symm

theorem mem_flatKeys_fst {x : Nat × List Nat} :
    ∀ d : List (Nat × InstrEntryG), x ∈ flatKeys d → x.1 ∈ d.map Prod.fst := by
  intro d
  induction d with
  | nil => intro h; simp [flatKeys] at h
  | cons ke rest ih =>
    obtain ⟨k, e⟩ := ke
    intro h
    rw [flatKeys] at h
    rcases List.mem_append.mp h with h | h
    · rcases List.mem_map.mp h with ⟨g, _, rfl⟩
      simp
    · simp [ih h]

theorem mem_flatKeys_insertG (phot : RawPhot) (x : Nat × List Nat) :
    ∀ d : List (Nat × InstrEntryG),
      (x ∈ flatKeys (insertG phot d) ↔ x ∈ flatKeys d ∨ x = keyOf phot) := by
  intro d
  induction d with
  | nil =>
    rw [insertG]
    simp [flatKeys, keyOf, addPhotEntry]
  | cons ke rest ih =>
    obtain ⟨k, e⟩ := ke
    rw [insertG]
    by_cases h : k = phot.instrument_id
    · rw [if_pos h]
      simp only [flatKeys, List.mem_append]
      constructor
      · rintro (hx | hx)
        · rcases List.mem_map.mp hx with ⟨gids', hgids', rfl⟩
          have hkeys := addPhotEntry_keys e (sortNat (phot.groups.map Prod.fst))
            (phot.groups.map Prod.snd) (formattedPhot phot)
          have hgmem : gids'.group_ids ∈
              (addPhotEntry e (sortNat (phot.groups.map Prod.fst))
                (phot.groups.map Prod.snd) (formattedPhot phot)).by_group.map
                (fun g => g.group_ids) :=
            List.mem_map.mpr ⟨gids', hgids', rfl⟩
          rw [hkeys] at hgmem
          by_cases hin : sortNat (phot.groups.map Prod.fst) ∈
              e.by_group.map (fun g => g.group_ids)
          · rw [if_pos hin] at hgmem
            rcases List.mem_map.mp hgmem with ⟨g0, hg0, hg0e⟩
            exact Or.inl (Or.inl (List.mem_map.mpr ⟨g0, hg0, by rw [hg0e]⟩))
          · rw [if_neg hin] at hgmem
            rcases List.mem_append.mp hgmem with hgm | hgm
            · rcases List.mem_map.mp hgm with ⟨g0, hg0, hg0e⟩
              exact Or.inl (Or.inl (List.mem_map.mpr ⟨g0, hg0, by rw [hg0e]⟩))
            · have : gids'.group_ids = sortNat (phot.groups.map Prod.fst) := by
                simpa using hgm
              refine Or.inr ?_
              rw [keyOf, ← h, ← this]
        · exact Or.inl (Or.inr hx)
      · rintro ((hx | hx) | hx)
        · rcases List.mem_map.mp hx with ⟨g0, hg0, rfl⟩
          refine Or.inl (List.mem_map.mpr ?_)
          have hkeys := addPhotEntry_keys e (sortNat (phot.groups.map Prod.fst))
            (phot.groups.map Prod.snd) (formattedPhot phot)
          have : g0.group_ids ∈
              (addPhotEntry e (sortNat (phot.groups.map Prod.fst))
                (phot.groups.map Prod.snd) (formattedPhot phot)).by_group.map
                (fun g => g.group_ids) := by
            rw [hkeys]
            by_cases hin : sortNat (phot.groups.map Prod.fst) ∈
                e.by_group.map (fun g => g.group_ids)
            · rw [if_pos hin]; exact List.mem_map.mpr ⟨g0, hg0, rfl⟩
            · rw [if_neg hin]
              exact List.mem_append.mpr (Or.inl (List.mem_map.mpr ⟨g0, hg0, rfl⟩))
          rcases List.mem_map.mp this with ⟨g1, hg1, hg1e⟩
          exact ⟨g1, hg1, by rw [hg1e]⟩
        · exact Or.inr hx
        · subst hx
          refine Or.inl (List.mem_map.mpr ?_)
          have hkeys := addPhotEntry_keys e (sortNat (phot.groups.map Prod.fst))
            (phot.groups.map Prod.snd) (formattedPhot phot)
          have : sortNat (phot.groups.map Prod.fst) ∈
              (addPhotEntry e (sortNat (phot.groups.map Prod.fst))
                (phot.groups.map Prod.snd) (formattedPhot phot)).by_group.map
                (fun g => g.group_ids) := by
            rw [hkeys]
            by_cases hin : sortNat (phot.groups.map Prod.fst) ∈
                e.by_group.map (fun g => g.group_ids)
            · rw [if_pos hin]; exact hin
            · rw [if_neg hin]; simp
          rcases List.mem_map.mp this with ⟨g1, hg1, hg1e⟩
          exact ⟨g1, hg1, by rw [keyOf, ← h, ← hg1e]⟩
    · rw [if_neg h]
      simp only [flatKeys, List.mem_append, ih]
      tauto

/-- Invariant of the insertion-ordered dictionary: instrument keys are
unique and each instrument's `by_group` keys are unique. -/
def InvG (d : List (Nat × InstrEntryG)) : Prop :=
  (d.map Prod.fst).Nodup ∧
  ∀ pe ∈ d, ((pe.2.by_group.map (fun g => g.group_ids)).Nodup)

theorem invG_insertG (phot : RawPhot) :
    ∀ d, InvG d → InvG (insertG phot d) := by
  intro d
  induction d with
  | nil =>
    intro _
    constructor
    · simp [insertG]
    · intro pe hpe
      rw [insertG] at hpe
      rcases List.mem_singleton.mp hpe with rfl
      simp [addPhotEntry]
  | cons ke rest ih =>
    obtain ⟨k, e⟩ := ke
    rintro ⟨hkeys, hentries⟩
    rw [insertG]
    by_cases h : k = phot.instrument_id
    · rw [if_pos h]
      constructor
      · simpa using hkeys
      · intro pe hpe
        rcases List.mem_cons.mp hpe with rfl | hpe
        · show ((addPhotEntry e _ _ _).by_group.map (fun g => g.group_ids)).Nodup
          rw [addPhotEntry_keys]
          have he := hentries (k, e) (List.mem_cons_self _ _)
          by_cases hin : sortNat (phot.groups.map Prod.fst) ∈
              e.by_group.map (fun g => g.group_ids)
          · rw [if_pos hin]; exact he
          · rw [if_neg hin]
            rw [List.nodup_append]
            exact ⟨he, List.nodup_singleton _, by
              intro a ha hmem
              rcases List.mem_singleton.mp hmem with rfl
              exact hin ha⟩
        · exact hentries pe (List.mem_cons_of_mem _ hpe)
    · rw [if_neg h]
      have hkc : (k :: rest.map Prod.fst).Nodup := by simpa using hkeys
      have hknotin : k ∉ rest.map Prod.fst := (List.nodup_cons.mp hkc).1
      have hrestno : (rest.map Prod.fst).Nodup := (List.nodup_cons.mp hkc).2
      obtain ⟨hkeys', hentries'⟩ :=
        ih ⟨hrestno, fun pe hpe => hentries pe (List.mem_cons_of_mem _ hpe)⟩
      constructor
      · simp only [List.map_cons]
        rw [List.nodup_cons]
        refine ⟨?_, hkeys'⟩
        rw [insertG_instrument_keys]
        by_cases hmem : phot.instrument_id ∈ rest.map Prod.fst
        · rw [if_pos hmem]; exact hknotin
        · rw [if_neg hmem]
          intro hk
          rcases List.mem_append.mp hk with hk | hk
          · exact hknotin hk
          · exact h (List.mem_singleton.mp hk)
      · intro pe hpe
        rcases List.mem_cons.mp hpe with rfl | hpe
        · exact hentries (k, e) (List.mem_cons_self _ _)
        · exact hentries' pe hpe

theorem flatKeys_nodup : ∀ d, InvG d → (flatKeys d).Nodup := by
  intro d
  induction d with
  | nil => intro _; simp [flatKeys]
  | cons ke rest ih =>
    obtain ⟨k, e⟩ := ke
    rintro ⟨hkeys, hentries⟩
    have hkc : (k :: rest.map Prod.fst).Nodup := by simpa using hkeys
    have hknotin : k ∉ rest.map Prod.fst := (List.nodup_cons.mp hkc).1
    have hrestno : (rest.map Prod.fst).Nodup := (List.nodup_cons.mp hkc).2
    rw [flatKeys, List.nodup_append]
    refine ⟨?_, ih ⟨hrestno, fun pe hpe => hentries pe
      (List.mem_cons_of_mem _ hpe)⟩, ?_⟩
    · have hmap : e.by_group.map (fun g => (k, g.group_ids)) =
          (e.by_group.map (fun g => g.group_ids)).map (fun gid => (k, gid)) := by
        rw [List.map_map]
        rfl
      rw [hmap]
      refine List.Nodup.map ?_ (hentries (k, e) (List.mem_cons_self _ _))
      intro a b hab
      simpa using hab
    · intro x hx hx'
      rcases List.mem_map.mp hx with ⟨g, _, rfl⟩
      have := mem_flatKeys_fst rest hx'
      exact hknotin this

theorem foldG_keys (pts : List RawPhot) :
    ∀ d, InvG d →
      InvG (pts.foldl (fun d p => insertG p d) d) ∧
      ∀ x, (x ∈ flatKeys (pts.foldl (fun d p => insertG p d) d) ↔
        x ∈ flatKeys d ∨ x ∈ pts.map keyOf) := by
  induction pts with
  | nil =>
    intro d hd
    exact ⟨hd, fun x => by simp⟩
  | cons p rest ih =>
    intro d hd
    simp only [List.foldl_cons]
    obtain ⟨hinv, hmem⟩ := ih (insertG p d) (invG_insertG p d hd)
    refine ⟨hinv, fun x => ?_⟩
    rw [hmem x, mem_flatKeys_insertG]
    simp only [List.map_cons, List.mem_cons]
    tauto

theorem buildDictG_inv (pts : List RawPhot) : InvG (buildDictG pts) :=
  (foldG_keys pts [] ⟨by simp, by simp⟩).1

theorem mem_flatKeys_buildDictG (pts : List RawPhot) (x : Nat × List Nat) :
    x ∈ flatKeys (buildDictG pts) ↔ x ∈ pts.map keyOf := by
  have := ((foldG_keys pts [] ⟨by simp, by simp⟩).2) x
  simpa [flatKeys] using this

theorem partitionsG_keys (sid : String) :
    ∀ d, (partitionsG sid d).map
        (fun part => (part.instrument_id, part.group_ids)) = flatKeys d := by
  intro d
  induction d with
  | nil => rfl
  | cons ke rest ih =>
    obtain ⟨k, e⟩ := ke
    rw [partitionsG, flatKeys, List.map_append, ih, List.map_map]
    rfl

theorem partitionsG_mem (sid : String) :
    ∀ d part, part ∈ partitionsG sid d →
      part.photometry.Pairwise (fun a b => a.mjd ≤ b.mjd) ∧
      part.filename = sid ++ "_" ++ part.instrument_name ++ "_" ++
        commaJoin part.group_ids ++ ".csv" := by
  intro d
  induction d with
  | nil => intro part h; simp [partitionsG] at h
  | cons ke rest ih =>
    obtain ⟨k, e⟩ := ke
    intro part hpart
    rw [partitionsG] at hpart
    rcases List.mem_append.mp hpart with h | h
    · rcases List.mem_map.mp h with ⟨g, _, rfl⟩
      exact ⟨sortByMjd_sorted _, rfl⟩
    · exact ih part h

theorem addToFirstMatch_count (gids : List Nat) (fp : FormattedPhot) :
    ∀ bg : List GroupEntry, gids ∈ bg.map (fun g => g.group_ids) →
      ((addToFirstMatch gids fp bg).map (fun g => g.photometry.length)).sum =
        (bg.map (fun g => g.photometry.length)).sum + 1 := by
  intro bg
  induction bg with
  | nil => intro h; simp at h
  | cons g rest ih =>
    intro h
    rw [addToFirstMatch]
    by_cases hg : g.group_ids = gids
    · rw [if_pos hg]
      simp only [List.map_cons, List.sum_cons, List.length_append,
        List.length_singleton]
      omega
    · rw [if_neg hg]
      have hmem : gids ∈ rest.map (fun g => g.group_ids) := by
        have hc : gids ∈ g.group_ids :: rest.map (fun g => g.group_ids) := by
          simpa using h
        rcases List.mem_cons.mp hc with hh | hh
        · exact absurd hh.symm hg
        · exact hh
      simp only [List.map_cons, List.sum_cons, ih hmem]
      omega

theorem addPhotEntry_count (e : InstrEntryG) (gids : List Nat)
    (names : List String) (fp : FormattedPhot) :
    ((addPhotEntry e gids names fp).by_group.map
        (fun g => g.photometry.length)).sum =
      (e.by_group.map (fun g => g.photometry.length)).sum + 1 := by
  rw [addPhotEntry]
  by_cases h : (e.by_group.any (fun g => g.group_ids = gids)) = true
  · rw [if_pos h]
    exact addToFirstMatch_count gids fp e.by_group ((any_groupids_iff _ _).mp h)
  · rw [if_neg h]
    simp

theorem photCountG_insertG (phot : RawPhot) :
    ∀ d, photCountG (insertG phot d) = photCountG d + 1 := by
  intro d
  induction d with
  | nil =>
    rw [insertG]
    show photCountG [_] = photCountG [] + 1
    rw [photCountG, photCountG, addPhotEntry_count]
    simp [photCountG]
  | cons ke rest ih =>
    obtain ⟨k, e⟩ := ke
    rw [insertG]
    by_cases h : k = phot.instrument_id
    · rw [if_pos h, photCountG, photCountG, addPhotEntry_count]
      omega
    · rw [if_neg h, photCountG, photCountG, ih]
      omega

/-- The group-set variant never removes a point: the total number of points
across all partitions equals the number of input points (no dedup step). -/
theorem photCountG_buildDictG (pts : List RawPhot) :
    photCountG (buildDictG pts) = pts.length := by
  suffices h : ∀ d, photCountG (pts.foldl (fun d p => insertG p d) d) =
      photCountG d + pts.length by
    simpa [photCountG] using h []
  induction pts with
  | nil => intro d; simp
  | cons p rest ih =>
    intro d
    simp only [List.foldl_cons, ih, photCountG_insertG, List.length_cons]
    omega

/-! ## The instrument-keyed grouper (`utils.py` lines 888-950) -/

/-- One `photometry_dict[instrument_id]` entry of the instrument-keyed
variant. -/
structure InstrEntryI where
  instrument_name : String
  photometry : List FormattedPhot
deriving DecidableEq, Repr

/-- Insert one raw point into the instrument-keyed `photometry_dict`: a
missing instrument key is created (with the point's instrument name and an
empty list) and the formatted point is appended to its entry. -/
def insertI (phot : RawPhot) : List (Nat × InstrEntryI) →
    List (Nat × InstrEntryI)
  | [] => [(phot.instrument_id,
      ⟨phot.instrument_name, [formattedPhot phot]⟩)]
  | (k, e) :: rest =>
    if k = phot.instrument_id then
      (k, { e with photometry := e.photometry ++ [formattedPhot phot] }) :: rest
    else (k, e) :: insertI phot rest

/-- Build the instrument-keyed `photometry_dict` from a source's photometry
list. -/
def buildDictI (pts : List RawPhot) : List (Nat × InstrEntryI) :=
  pts.foldl (fun d p => insertI p d) []

/-- One output partition of the instrument-keyed variant: sorted ascending
by `mjd` then deduplicated, materialized under
`{source_id}_{instrument_name}.csv`. -/
structure PartitionI where
  instrument_id : Nat
  instrument_name : String
  photometry : List FormattedPhot
  filename : String
deriving DecidableEq, Repr

/-- The per-instrument output loop of the instrument-keyed variant. -/
def partitionsI (source_id : String) :
    List (Nat × InstrEntryI) → List PartitionI
  | [] => []
  | (k, e) :: rest =>
    { instrument_id := k
      instrument_name := e.instrument_name
      photometry := dedupPhot (sortByMjd e.photometry)
      filename := source_id ++ "_" ++ e.instrument_name ++ ".csv"
      : PartitionI } :: partitionsI source_id rest

theorem partitionsI_mem (sid : String) :
    ∀ d part, part ∈ partitionsI sid d →
      ∃ e : InstrEntryI, part.photometry = dedupPhot (sortByMjd e.photometry) := by
  intro d
  induction d with
  | nil => intro part h; simp [partitionsI] at h
  | cons ke rest ih =>
    obtain ⟨k, e⟩ := ke
    intro part hpart
    rw [partitionsI] at hpart
    rcases List.mem_cons.mp hpart with rfl | hpart
    · exact ⟨e, rfl⟩
    · exact ih part hpart

/-- A concrete photometry point used to exhibit duplicate behaviour. -/
def dupPoint : RawPhot :=
  { mjd := 1
    filter := "g"
    mag := some 20
    magerr := some 1
    magsys := some "ab"
    limiting_mag := some 21
    ra := none
    dec := none
    ra_unc := none
    dec_unc := none
    origin := none
    instrument_id := 1
    instrument_name := "ZTF"
    groups := [(1, "prog")] }

/-- C3 counterexample: the (instrument, group-set)-keyed variant
(`dump_sources.py`) has no dedup step.  Feeding it the same point twice —
two points agreeing on all five identity fields — produces one partition
that retains both copies, contradicting the claim that both variants keep
only the first of two agreeing points. -/
theorem groupset_variant_keeps_duplicates :
    (partitionsG "src1" (buildDictG [dupPoint, dupPoint])).map
        (fun part => part.photometry) =
      [[formattedPhot dupPoint, formattedPhot dupPoint]] ∧
    isDup (formattedPhot dupPoint) (formattedPhot dupPoint) = true := by
  exact ⟨rfl, rfl⟩

/-- C3 amended: the dedup identity `(mjd, mag, magerr, limiting_mag,
filter)` with keep-the-first semantics holds in the instrument-keyed variant
only: its dedup step equals the keep-first specification `dedupSpec` and
every partition it emits is free of duplicate pairs; the
(instrument, group-set)-keyed variant performs no deduplication at all — the
total number of points across its partitions always equals the number of
input points. -/
theorem dedup_only_in_instrument_variant :
    (∀ l : List FormattedPhot, dedupPhot l = dedupSpec l) ∧
    (∀ (sid : String) (d : List (Nat × InstrEntryI)),
      ∀ part ∈ partitionsI sid d,
        part.photometry.Pairwise (fun a b => isDup a b = false)) ∧
    (∀ pts : List RawPhot, photCountG (buildDictG pts) = pts.length) := by
  refine ⟨dedupPhot_eq_dedupSpec, ?_, photCountG_buildDictG⟩
  intro sid d part hpart
  obtain ⟨e, he⟩ := partitionsI_mem sid d part hpart
  rw [he, dedupPhot_eq_dedupSpec]
  exact dedupSpec_pairwise _

/-- C4: a source whose photometry spans exactly 2 instruments with exactly 2
distinct group-membership sets each (4 distinct `(instrument, sorted group
ids)` keys in total) yields exactly 4 partitions from the
(instrument, group-set)-keyed grouper; the partition key sorts group ids
before comparison, so it is order-independent, every partition is sorted
ascending by `mjd`, and every partition's file is named
`{source_id}_{instrument_name}_{comma-joined sorted group ids}.csv`. -/
theorem four_partitions_for_two_by_two (sid : String) (pts : List RawPhot)
    (i1 i2 : Nat) (g1 g2 g3 g4 : List Nat)
    (hi : i1 ≠ i2) (hg12 : g1 ≠ g2) (hg34 : g3 ≠ g4)
    (hkeys : (pts.map keyOf).toFinset =
      {(i1, g1), (i1, g2), (i2, g3), (i2, g4)}) :
    (partitionsG sid (buildDictG pts)).length = 4 ∧
    (∀ part ∈ partitionsG sid (buildDictG pts),
      part.photometry.Pairwise (fun a b => a.mjd ≤ b.mjd) ∧
      part.filename = sid ++ "_" ++ part.instrument_name ++ "_" ++
        commaJoin part.group_ids ++ ".csv") ∧
    (∀ p q : RawPhot, p.instrument_id = q.instrument_id →
      (p.groups.map Prod.fst).Perm (q.groups.map Prod.fst) →
      keyOf p = keyOf q) := by
  refine ⟨?_, fun part hpart => partitionsG_mem sid _ part hpart,
    fun p q hinstr hperm => ?_⟩
  · have hK := partitionsG_keys sid (buildDictG pts)
    have hnodup : (flatKeys (buildDictG pts)).Nodup :=
      flatKeys_nodup _ (buildDictG_inv pts)
    have hsetK : (flatKeys (buildDictG pts)).toFinset =
        (pts.map keyOf).toFinset := by
      apply Finset.ext
      intro x
      rw [List.mem_toFinset, List.mem_toFinset]
      exact mem_flatKeys_buildDictG pts x
    have hlen : (flatKeys (buildDictG pts)).length =
        (flatKeys (buildDictG pts)).toFinset.card :=
      (List.toFinset_card_of_nodup hnodup).symm
    have hcard : ({(i1, g1), (i1, g2), (i2, g3), (i2, g4)} :
        Finset (Nat × List Nat)).card = 4 := by
      rw [Finset.card_insert_of_not_mem (by simp [hi, hg12]),
        Finset.card_insert_of_not_mem (by simp [hi]),
        Finset.card_insert_of_not_mem (by simp [hg34]),
        Finset.card_singleton]
    calc (partitionsG sid (buildDictG pts)).length
        = ((partitionsG sid (buildDictG pts)).map
            (fun part => (part.instrument_id, part.group_ids))).length :=
          (List.length_map _ _).symm
      _ = (flatKeys (buildDictG pts)).length := by rw [hK]
      _ = 4 := by rw [hlen, hsetK, hkeys, hcard]
  · rw [keyOf, keyOf, hinstr, sortNat_eq_of_perm hperm]

/-- Witness for C4: four points over 2 instruments and 2 group sets each
yield exactly 4 partitions. -/
theorem four_partitions_for_two_by_two_witness :
    ((([{ dupPoint with instrument_id := 1, groups := [(1, "a")] },
        { dupPoint with instrument_id := 1, groups := [(2, "b")] },
        { dupPoint with instrument_id := 2, groups := [(1, "a")] },
        { dupPoint with instrument_id := 2, groups := [(3, "c")] }] :
          List RawPhot).map keyOf).toFinset =
      {(1, [1]), (1, [2]), (2, [1]), (2, [3])}) ∧
    (partitionsG "src1" (buildDictG
      [{ dupPoint with instrument_id := 1, groups := [(1, "a")] },
       { dupPoint with instrument_id := 1, groups := [(2, "b")] },
       { dupPoint with instrument_id := 2, groups := [(1, "a")] },
       { dupPoint with instrument_id := 2, groups := [(3, "c")] }])).length
      = 4 :=
  ⟨by decide,
   (four_partitions_for_two_by_two "src1"
    [{ dupPoint with instrument_id := 1, groups := [(1, "a")] },
     { dupPoint with instrument_id := 1, groups := [(2, "b")] },
     { dupPoint with instrument_id := 2, groups := [(1, "a")] },
     { dupPoint with instrument_id := 2, groups := [(3, "c")] }]
    1 2 [1] [2] [1] [3] (by decide) (by decide) (by decide) (by decide)).1⟩

/-! ## Source formatting (`utils.py` lines 843-855) and source/photometry
separation (`utils.py` lines 888-950) -/

/-- Dict assignment `d[k] = v`: overwrite in place, append when absent. -/
def setKey : List (String × Val) → String → Val → List (String × Val)
  | [], k, v => [(k, v)]
  | (k', v') :: rest, k, v =>
    if k' = k then (k', v) :: rest else (k', v') :: setKey rest k v

/-- `formattedSource` (the `utils.py` variant used by `dump_skyportal.py`):
copy each field of `source_fields` (missing fields become null), then
overwrite `group_ids` with the fixed public-group placeholder. -/
def formattedSource (source : List (String × Val)) : List (String × Val) :=
  setKey
    (source_fields.map (fun field =>
      (field, match source.lookup field with
        | some v => v
        | none => Val.null)))
    "group_ids" (Val.strs ["=public_group_id"])

theorem formattedSource_formattedSource (source : List (String × Val)) :
    formattedSource (formattedSource source) = formattedSource source := rfl

/-- A raw source record: its dict of fields plus the photometry list
attached to it by `get_all_sources_and_phot`. -/
structure RawSource where
  dict : List (String × Val)
  photometry : List RawPhot
deriving DecidableEq, Repr

/-- `source['id']`, as used for CSV file names and `obj_id` references. -/
def sourceId (s : RawSource) : String :=
  match s.dict.lookup "id" with
  | some (Val.str v) => v
  | _ => ""

/-- A photometry reference record (`photometry_list_to_yaml` entry). -/
structure PhotRef where
  obj_id : String
  instrument_id : Nat
  group_ids : List String
  file : String
deriving DecidableEq, Repr

/-- `list(set(...))` on instrument ids; the Python set's iteration order is
unspecified, modelled as keep-first-occurrence. -/
def dedupNat : List Nat → List Nat
  | [] => []
  | x :: rest => x :: dedupNat (rest.filter (fun y => y ≠ x))
termination_by l => l.length
decreasing_by
  simp only [List.length_cons]
  exact Nat.lt_succ_of_le (List.length_filter_le _ _)

/-- The main loop of `seperate_sources_from_phot` (`utils.py`): for each
source append its formatted record; when it has photometry, build the
instrument-keyed dict, emit one CSV partition and one reference record per
instrument, and accumulate the set of instrument ids. -/
def seperateGo : List RawSource → List (List (String × Val)) →
    List PhotRef → List Nat →
    List (List (String × Val)) × List PhotRef × List Nat
  | [], source_list, photometry_list, instrument_ids =>
    (source_list, photometry_list, instrument_ids)
  | s :: rest, source_list, photometry_list, instrument_ids =>
    let source_list' := source_list ++ [formattedSource s.dict]
    if s.photometry.length > 0 then
      let d := buildDictI s.photometry
      let photometry_list' := photometry_list ++
        (partitionsI (sourceId s) d).map (fun part =>
          { obj_id := sourceId s
            instrument_id := part.instrument_id
            group_ids := ["=public_group_id"]
            file := "photometry/" ++ part.filename : PhotRef })
      let instrument_ids' := dedupNat (instrument_ids ++ d.map Prod.fst)
      seperateGo rest source_list' photometry_list' instrument_ids'
    else seperateGo rest source_list' photometry_list instrument_ids

/-- `seperate_sources_from_phot` (`utils.py` lines 888-950), returning the
formatted source list, the photometry reference list and the instrument id
list. -/
def seperate_sources_from_phot (data : List RawSource) :
    List (List (String × Val)) × List PhotRef × List Nat :=
  seperateGo data [] [] []

theorem seperateGo_spec (data : List RawSource) :
    ∀ (source_list : List (List (String × Val)))
      (photometry_list : List PhotRef) (instrument_ids : List Nat),
      (seperateGo data source_list photometry_list instrument_ids).1 =
        source_list ++ data.map (fun s => formattedSource s.dict) ∧
      ∀ r ∈ (seperateGo data source_list photometry_list instrument_ids).2.1,
        r ∈ photometry_list ∨
          ∃ s ∈ data, s.photometry ≠ [] ∧ r.obj_id = sourceId s := by
  induction data with
  | nil =>
    intro sl pl ii
    exact ⟨by simp [seperateGo], fun r hr => Or.inl hr⟩
  | cons s rest ih =>
    intro sl pl ii
    rw [seperateGo]
    by_cases hphot : s.photometry.length > 0
    · rw [if_pos hphot]
      obtain ⟨h1, h2⟩ := ih (sl ++ [formattedSource s.dict])
        (pl ++ (partitionsI (sourceId s) (buildDictI s.photometry)).map
          (fun part =>
            { obj_id := sourceId s
              instrument_id := part.instrument_id
              group_ids := ["=public_group_id"]
              file := "photometry/" ++ part.filename : PhotRef }))
        (dedupNat (ii ++ (buildDictI s.photometry).map Prod.fst))
      refine ⟨by rw [h1]; simp, fun r hr => ?_⟩
      rcases h2 r hr with hr' | ⟨s', hs', hne, hid⟩
      · rcases List.mem_append.mp hr' with hr'' | hr''
        · exact Or.inl hr''
        · rcases List.mem_map.mp hr'' with ⟨part, _, rfl⟩
          exact Or.inr ⟨s, List.mem_cons_self _ _,
            fun he => by rw [he] at hphot; simp at hphot, rfl⟩
      · exact Or.inr ⟨s', List.mem_cons_of_mem _ hs', hne, hid⟩
    · rw [if_neg hphot]
      obtain ⟨h1, h2⟩ := ih (sl ++ [formattedSource s.dict]) pl ii
      refine ⟨by rw [h1]; simp, fun r hr => ?_⟩
      rcases h2 r hr with hr' | ⟨s', hs', hne, hid⟩
      · exact Or.inl hr'
      · exact Or.inr ⟨s', List.mem_cons_of_mem _ hs', hne, hid⟩

/-- C6: a source with an empty photometry list contributes exactly one
formatted Source record and no photometry-reference record (and no CSV
partition); this is success, not an error.  In particular for three input
sources of which the first has no photometry (and an id distinct from the
other two), the output holds 3 Source records and every reference record
points at one of the other two sources. -/
theorem empty_photometry_yields_no_refs (data : List RawSource) :
    ((seperate_sources_from_phot data).1.length = data.length) ∧
    (∀ r ∈ (seperate_sources_from_phot data).2.1,
      ∃ s ∈ data, s.photometry ≠ [] ∧ r.obj_id = sourceId s) ∧
    (∀ a b c : RawSource, data = [a, b, c] → a.photometry = [] →
      sourceId b ≠ sourceId a → sourceId c ≠ sourceId a →
      (seperate_sources_from_phot data).1.length = 3 ∧
      ∀ r ∈ (seperate_sources_from_phot data).2.1,
        r.obj_id ≠ sourceId a) := by
  obtain ⟨h1, h2⟩ := seperateGo_spec data [] [] []
  have hlen : (seperate_sources_from_phot data).1.length = data.length := by
    rw [seperate_sources_from_phot, h1]
    simp
  have hrefs : ∀ r ∈ (seperate_sources_from_phot data).2.1,
      ∃ s ∈ data, s.photometry ≠ [] ∧ r.obj_id = sourceId s := by
    intro r hr
    rcases h2 r hr with hr' | hx
    · simp at hr'
    · exact hx
  refine ⟨hlen, hrefs, ?_⟩
  rintro a b c rfl ha hb hc
  refine ⟨by rw [hlen]; rfl, ?_⟩
  intro r hr
  obtain ⟨s, hs, hne, hid⟩ := hrefs r hr
  simp only [List.mem_cons, List.not_mem_nil, or_false] at hs
  rcases hs with rfl | rfl | rfl
  · exact absurd ha hne
  · rw [hid]; exact hb
  · rw [hid]; exact hc

/-- Witness for C6: three concrete sources, the first without photometry. -/
theorem empty_photometry_yields_no_refs_witness :
    ((seperate_sources_from_phot
        [⟨[("id", Val.str "s0")], []⟩,
         ⟨[("id", Val.str "s1")], [dupPoint]⟩,
         ⟨[("id", Val.str "s2")], [dupPoint, dupPoint]⟩]).1.length = 3 ∧
      ∀ r ∈ (seperate_sources_from_phot
        [⟨[("id", Val.str "s0")], []⟩,
         ⟨[("id", Val.str "s1")], [dupPoint]⟩,
         ⟨[("id", Val.str "s2")], [dupPoint, dupPoint]⟩]).2.1,
        r.obj_id ≠ sourceId ⟨[("id", Val.str "s0")], []⟩) :=
  ((empty_photometry_yields_no_refs
      [⟨[("id", Val.str "s0")], []⟩,
       ⟨[("id", Val.str "s1")], [dupPoint]⟩,
       ⟨[("id", Val.str "s2")], [dupPoint, dupPoint]⟩]).2.2
    ⟨[("id", Val.str "s0")], []⟩
    ⟨[("id", Val.str "s1")], [dupPoint]⟩
    ⟨[("id", Val.str "s2")], [dupPoint, dupPoint]⟩
    rfl rfl (by decide) (by decide))

/-- C10: `formattedSource` is idempotent — its output carries exactly the
`source_fields` keys, so a second application copies every field unchanged
and resets `group_ids` to the same fixed placeholder.  Consequently the
second application `dump()` makes over the already-formatted source list of
`seperate_sources_from_phot` leaves the emitted Source records unchanged. -/
theorem formattedSource_idempotent_pipeline :
    (∀ source : List (String × Val),
      formattedSource (formattedSource source) = formattedSource source) ∧
    (∀ source : List (String × Val),
      (formattedSource source).lookup "group_ids" =
        some (Val.strs ["=public_group_id"])) ∧
    (∀ data : List RawSource,
      (seperate_sources_from_phot data).1.map formattedSource =
        (seperate_sources_from_phot data).1) := by
  refine ⟨formattedSource_formattedSource, fun source => rfl, fun data => ?_⟩
  have hmap : ∀ l : List RawSource,
      (l.map (fun s => formattedSource s.dict)).map formattedSource =
        l.map (fun s => formattedSource s.dict) := by
    intro l
    induction l with
    | nil => rfl
    | cons s rest ih =>
      simp only [List.map_cons, formattedSource_formattedSource, ih]
  have h1 := (seperateGo_spec data [] [] []).1
  rw [seperate_sources_from_phot, h1, List.nil_append]
  exact hmap data

/-! ## Localization resolution (`utils.py` lines 205-238, `dump_skyportal.py`
lines 974-990) -/

/-- Does `hay` start with `needle`? -/
def startsWithCs : List Char → List Char → Bool
  | [], _ => true
  | _ :: _, [] => false
  | a :: as, b :: bs => a == b && startsWithCs as bs

/-- Is `needle` a substring of `hay` (Python's `needle in hay`)? -/
def containsCs (needle : List Char) : List Char → Bool
  | [] => needle.isEmpty
  | c :: rest => startsWithCs needle (c :: rest) || containsCs needle rest

/-- Python's `needle in hay` on strings. -/
def strContains (hay needle : String) : Bool :=
  containsCs needle.toList hay.toList

/-- Python's `str.split(sep)` on character lists, `sep = s0 :: ss`
(nonempty); structurally recursive on a fuel argument that the caller sets
to the list length, which every step strictly decreases. -/
def splitOnCs (s0 : Char) (ss : List Char) : Nat → List Char → List (List Char)
  | _, [] => [[]]
  | 0, c :: rest => [c :: rest]
  | fuel + 1, c :: rest =>
    if startsWithCs (s0 :: ss) (c :: rest) then
      [] :: splitOnCs s0 ss fuel (rest.drop ss.length)
    else
      match splitOnCs s0 ss fuel rest with
      | r :: rs => (c :: r) :: rs
      | [] => [[c]]

/-- Python's `s.split(sep)` (our separators are never empty). -/
def splitPy (s sep : String) : List String :=
  match sep.toList with
  | [] => [s]
  | c :: cs => (splitOnCs c cs s.toList.length s.toList).map List.asString

/-- `s.split(sep)[i]`; a missing index is Python's `IndexError`. -/
def splitIdx (s sep : String) (i : Nat) : Except Unit String :=
  match (splitPy s sep).get? i with
  | some r => Except.ok r
  | none => Except.error ()

/-- `content.split(op)[1].split(cl)[0]` — the tag-delimited payload
extraction of `get_gcnevent_data`. -/
def extractBetween (content op cl : String) : Except Unit String := do
  let a ← splitIdx content op 1
  splitIdx a cl 0

/-- Matcher for the component pattern `-?\d+\.?\d*`: an optional minus, one
or more digits, an optional dot, then digits. -/
def matchSignedDec (cs : List Char) : Bool :=
  let body := match cs with
    | '-' :: rest => rest
    | _ => cs
  let digits := body.takeWhile Char.isDigit
  let rest := body.dropWhile Char.isDigit
  !digits.isEmpty &&
    (match rest with
     | [] => true
     | '.' :: tail => tail.all Char.isDigit
     | _ => false)

/-- The regex `^-?\d+\.?\d*_-?\d+\.?\d*_-?\d+\.?\d*$` of
`get_gcnevent_data`: since no component can contain an underscore, matching
is equivalent to splitting on `_` into exactly three parts that each match
the component pattern. -/
def numericPattern (localizationName : String) : Bool :=
  let parts := splitPy localizationName "_"
  parts.length == 3 && (parts.all (fun p => matchSignedDec p.toList))

/-- The loop over position-bearing notices: extract the `<C1>`, `<C2>` and
`<Error2Radius>` payloads and return the first notice whose values are each
contained in the respective query component. -/
def circularLoop (ra dec radius : String) :
    List String → Except Unit (Option String)
  | [] => Except.ok none
  | content :: rest => do
    let notice_ra ← extractBetween content "<C1>" "</C1>"
    let notice_dec ← extractBetween content "<C2>" "</C2>"
    let notice_radius ← extractBetween content "<Error2Radius>" "</Error2Radius>"
    if strContains ra notice_ra && strContains dec notice_dec &&
        strContains radius notice_radius then
      Except.ok (some content)
    else circularLoop ra dec radius rest

/-- The circular-match branch: split the localization name into
`ra_dec_radius` and scan the notices carrying a `Position2D` element. -/
def circularBranch (notices : List String) (localizationName : String) :
    Except Unit (Option String) :=
  let parts := splitPy localizationName "_"
  circularLoop (parts.getD 0 "") (parts.getD 1 "") (parts.getD 2 "")
    (notices.filter (fun content =>
      strContains content "<Position2D unit=\"deg\">"))

/-- The loop over `skymap_fits`-bearing notices: return the first whose
parameter payload contains the localization name. -/
def fitsLoop (localizationName : String) :
    List String → Except Unit (Option String)
  | [] => Except.ok none
  | content :: rest => do
    let notice_file ← extractBetween content
      "<Param name=\"skymap_fits\"" "</Param>"
    if strContains notice_file localizationName then Except.ok (some content)
    else fitsLoop localizationName rest

/-- `any(extension in localizationName for extension in
['.fit', '.fits', '.gz'])`. -/
def hasSkymapExt (localizationName : String) : Bool :=
  strContains localizationName ".fit" || strContains localizationName ".fits"
    || strContains localizationName ".gz"

/-- The file-extension branch of `get_gcnevent_data`. -/
def extBranch (notices : List String) (localizationName : String) :
    Except Unit (Option String) :=
  if hasSkymapExt localizationName then
    fitsLoop localizationName (notices.filter (fun content =>
      strContains content "<Param name=\"skymap_fits\""))
  else Except.ok none

/-- A GCN notice record; `content` is `none` when the notice carries no
`"content"` field. -/
structure Notice where
  content : Option String
deriving DecidableEq, Repr

/-- `[notice for notice in notices if "content" in notice]`. -/
def noticeContents (notices : List Notice) : List String :=
  notices.filterMap (fun n => n.content)

/-- The dispatch of `get_gcnevent_data` (`utils.py` lines 215-238), after
the event's localization-name check: try the circular branch when the name
matches the numeric pattern, then the extension branch, else no notice
content (the status/tags plumbing around it is not modelled). -/
def get_gcnevent_notice (notices : List Notice)
    (localizationName : String) : Except Unit (Option String) :=
  let contents := noticeContents notices
  if numericPattern localizationName then
    match circularBranch contents localizationName with
    | Except.error e => Except.error e
    | Except.ok (some c) => Except.ok (some c)
    | Except.ok none => extBranch contents localizationName
  else extBranch contents localizationName

/-- The two mutually exclusive sky-event record shapes built by `dump()`. -/
inductive SkyEventRecord where
  | raster (dateobs : String) (skymap : String) (tags : List String)
  | noticeDoc (xml : String)
deriving DecidableEq, Repr

/-- The caller's dispatch (`dump_skyportal.py` lines 974-990): with no
notice content, fetch the rasterized 2-D sky map and emit the raster
variant; otherwise persist the notice text and emit the notice variant.
(Paths stand in for `os.path.abspath` of the written files.) -/
def mkGcnEvent (localizationDateobs localizationName directory : String)
    (tags : List String) (notice : Option String) : SkyEventRecord :=
  match notice with
  | none => SkyEventRecord.raster localizationDateobs
      (directory ++ "/" ++ localizationName ++ ".fits") tags
  | some _ => SkyEventRecord.noticeDoc
      (directory ++ "/" ++ localizationName ++ ".txt")

/-- C7: a numeric-pattern `localizationName` drives the circular-match
branch, and a circular match is returned as the notice-content variant; a
name containing `.fit`/`.fits`/`.gz` that does not match the numeric
pattern drives the `skymap_fits` branch; in all other cases, or when
neither branch found a matching notice, no notice content is returned and
the caller emits the raster sky-map variant. -/
theorem localization_dispatch (notices : List Notice)
    (localizationName : String) :
    (numericPattern localizationName = true →
      ∀ c, circularBranch (noticeContents notices) localizationName =
          Except.ok (some c) →
        get_gcnevent_notice notices localizationName = Except.ok (some c)) ∧
    (numericPattern localizationName = false →
      hasSkymapExt localizationName = true →
      get_gcnevent_notice notices localizationName =
        extBranch (noticeContents notices) localizationName) ∧
    (numericPattern localizationName = false →
      hasSkymapExt localizationName = false →
      get_gcnevent_notice notices localizationName = Except.ok none) ∧
    ((numericPattern localizationName = false ∨
        circularBranch (noticeContents notices) localizationName =
          Except.ok none) →
      (hasSkymapExt localizationName = false ∨
        extBranch (noticeContents notices) localizationName =
          Except.ok none) →
      get_gcnevent_notice notices localizationName = Except.ok none) ∧
    (∀ dateobs directory tags,
      mkGcnEvent dateobs localizationName directory tags none =
        SkyEventRecord.raster dateobs
          (directory ++ "/" ++ localizationName ++ ".fits") tags) := by
  refine ⟨?_, ?_, ?_, ?_, fun dateobs directory tags => rfl⟩
  · intro hnum c hc
    rw [get_gcnevent_notice, if_pos hnum, hc]
  · intro hnum _
    rw [get_gcnevent_notice, if_neg (by rw [hnum]; exact Bool.false_ne_true)]
  · intro hnum hext
    rw [get_gcnevent_notice, if_neg (by rw [hnum]; exact Bool.false_ne_true),
      extBranch, if_neg (by rw [hext]; exact Bool.false_ne_true)]
  · intro hcirc hext
    have hextres : extBranch (noticeContents notices) localizationName =
        Except.ok none := by
      rcases hext with hext | hext
      · rw [extBranch, if_neg (by rw [hext]; exact Bool.false_ne_true)]
      · exact hext
    rw [get_gcnevent_notice]
    by_cases hnum : numericPattern localizationName = true
    · rw [if_pos hnum]
      rcases hcirc with hcirc | hcirc
      · rw [hnum] at hcirc; exact Bool.noConfusion hcirc
      · rw [hcirc]
        exact hextres
    · rw [if_neg hnum]
      exact hextres

/-- A notice whose position payload matches `10.5_-3.2_0.5`. -/
def demoNotice : String :=
  "<Position2D unit=\"deg\"><C1>10.5</C1><C2>-3.2</C2>" ++
    "<Error2Radius>0.5</Error2Radius></Position2D>"

/-- Witness for C7: `"10.5_-3.2_0.5"` matches the numeric pattern and a
matching position notice is returned; `"bayestar.fits.gz"` does not match
the numeric pattern and drives the extension branch. -/
theorem localization_dispatch_witness :
    numericPattern "10.5_-3.2_0.5" = true ∧
    get_gcnevent_notice [⟨some demoNotice⟩] "10.5_-3.2_0.5" =
      Except.ok (some demoNotice) ∧
    numericPattern "bayestar.fits.gz" = false ∧
    hasSkymapExt "bayestar.fits.gz" = true ∧
    get_gcnevent_notice [] "bayestar.fits.gz" = extBranch [] "bayestar.fits.gz" :=
  ⟨by rfl,
   (localization_dispatch [⟨some demoNotice⟩] "10.5_-3.2_0.5").1 (by rfl)
     demoNotice (by rfl),
   by rfl, by rfl,
   (localization_dispatch [] "bayestar.fits.gz").2.1 (by rfl) (by rfl)⟩

/-! ## Termination statuses and the top-level caller
(`utils.py` lines 802-823, `dump_skyportal.py` lines 955-961) -/

/-- A mock fetch whose first page is full (status 200) and whose second page
fails with status 404. -/
def fetch404 : Nat → Nat × List Nat :=
  fun p => if p = 1 then (200, [1, 2, 3]) else (404, [])

/-- A mock fetch whose first page is full (status 200) and whose second page
returns status 500 (benign end-of-data). -/
def fetch500 : Nat → Nat × List Nat :=
  fun p => if p = 1 then (200, [7]) else (500, [])

/-- The caller's gate in `dump()` (`dump_skyportal.py` lines 956-958):
`status, data = get_all_sources_and_phot(...)` is immediately followed by
`status = 200`, and then `if status == 200 or status == 500:` decides
whether to proceed to format and emit output.  The reassignment makes the
fetch status irrelevant. -/
def dump_proceeds (fetch_status : Nat) : Bool :=
  let status := fetch_status
  let status := 200
  status == 200 || status == 500

/-- C8 behaviour at the failing input: a 404 on page 2 terminates the loop
keeping the items already accumulated and reporting status 404, and a 500
terminates benignly with the accumulated items — but `dump()` overwrites the
returned status with 200 and proceeds to format and emit output even for
the failed 404 run, instead of treating it as failed. -/
theorem error_status_keeps_items_but_caller_proceeds :
    pagLoop fetch404 3 true 5 0 1 [] 0 0 =
      some ⟨404, [1, 2, 3], 2, 0⟩ ∧
    pagLoop fetch500 1 true 5 0 1 [] 0 0 =
      some ⟨500, [7], 2, 0⟩ ∧
    dump_proceeds 404 = true :=
  ⟨rfl, rfl, rfl⟩

/-! ## Foreign-key remapping (`utils.py` lines 112-127 and 870-886) -/

/-- A foreign-key field value in a formatted record: either the raw numeric
catalog id (copied unchanged) or the `=`-prefixed symbolic reference. -/
inductive FK where
  | raw : Nat → FK
  | sym : String → FK
deriving DecidableEq, Repr

/-- A raw instrument record (the `instrument_fields` of `utils.py`). -/
structure Instrument where
  name : String
  type : Option String
  band : Option String
  telescope_id : Nat
  filters : List String
  api_classname : Option String
  api_classname_obsplan : Option String
  treasuremap_id : Option Nat
  sensitivity_data : Option String
deriving DecidableEq, Repr

/-- A formatted instrument record; `yaml_id` is the `'=id'` field. -/
structure FormattedInstrument where
  name : String
  type : Option String
  band : Option String
  telescope_id : FK
  filters : List String
  api_classname : Option String
  api_classname_obsplan : Option String
  treasuremap_id : Option Nat
  sensitivity_data : Option String
  yaml_id : String
deriving DecidableEq, Repr

/-- `formattedInstrument` (`utils.py` lines 112-127).  The remapping guard
is `if telescope_yaml_ids:` — Python truthiness, so both `None` and an
empty mapping skip the remapping and leave the raw numeric `telescope_id`
in place; with a nonempty mapping, `telescope_yaml_ids[...]` raises
`KeyError` (modelled as `none`) when the id is absent. -/
def formattedInstrument (instrument : Instrument)
    (telescope_yaml_ids : Option (List (Nat × String))) :
    Option FormattedInstrument :=
  let base : FormattedInstrument :=
    { name := instrument.name
      type := instrument.type
      band := instrument.band
      telescope_id := FK.raw instrument.telescope_id
      filters := instrument.filters
      api_classname := instrument.api_classname
      api_classname_obsplan := instrument.api_classname_obsplan
      treasuremap_id := instrument.treasuremap_id
      sensitivity_data := instrument.sensitivity_data
      yaml_id := instrument.name.trim }
  match telescope_yaml_ids with
  | none => some base
  | some m =>
    if m.isEmpty then some base
    else
      match m.lookup instrument.telescope_id with
      | some t => some { base with telescope_id := FK.sym ("=" ++ t) }
      | none => none

/-- A formatted photometry reference. -/
structure FormattedPhotRef where
  obj_id : String
  instrument_id : FK
  group_ids : List String
  file : String
deriving DecidableEq, Repr

/-- `formattedPhotRef` (`utils.py` lines 870-886).  Its guard is
`if instrument_yaml_ids is not None:`, so any provided mapping (empty
included) is consulted and a missing id raises `KeyError` (modelled as
`none`). -/
def formattedPhotRef (photometryRef : PhotRef)
    (instrument_yaml_ids : Option (List (Nat × String))) :
    Option FormattedPhotRef :=
  let base : FormattedPhotRef :=
    { obj_id := photometryRef.obj_id
      instrument_id := FK.raw photometryRef.instrument_id
      group_ids := ["=public_group_id"]
      file := photometryRef.file }
  match instrument_yaml_ids with
  | none => some base
  | some m =>
    match m.lookup photometryRef.instrument_id with
    | some t => some { base with instrument_id := FK.sym ("=" ++ t) }
    | none => none

/-- A concrete instrument referencing telescope 7. -/
def demoInstrument : Instrument :=
  { name := "ZTF Camera"
    type := some "imager"
    band := some "optical"
    telescope_id := 7
    filters := ["ztfg"]
    api_classname := none
    api_classname_obsplan := none
    treasuremap_id := none
    sensitivity_data := none }

/-- C9 counterexample: with an *empty* resolved mapping — from which the
foreign id 7 is certainly absent — `formattedInstrument` does not fail: the
Python truthiness guard `if telescope_yaml_ids:` skips the remapping and
the formatting completes, emitting the raw numeric telescope id 7 in the
output record. -/
theorem instrument_empty_mapping_emits_raw_id :
    (formattedInstrument demoInstrument (some [])).map
        (fun f => f.telescope_id) = some (FK.raw 7) ∧
    ([] : List (Nat × String)).lookup demoInstrument.telescope_id = none := by
  exact ⟨rfl, rfl⟩

/-- C9 amended: a lookup miss fails loudly (KeyError) in
`formattedInstrument` whenever the provided mapping is nonempty, and in
`formattedPhotRef` whenever a mapping is provided at all; the exception is
`formattedInstrument` called with an empty mapping, whose truthiness guard
skips remapping entirely and emits the raw numeric id. -/
theorem fk_lookup_fails_loudly :
    (∀ (instrument : Instrument) (m : List (Nat × String)), m ≠ [] →
      m.lookup instrument.telescope_id = none →
      formattedInstrument instrument (some m) = none) ∧
    (∀ (photometryRef : PhotRef) (m : List (Nat × String)),
      m.lookup photometryRef.instrument_id = none →
      formattedPhotRef photometryRef (some m) = none) := by
  constructor
  · intro instrument m hne hlook
    have hempty : m.isEmpty = false := by
      cases m with
      | nil => exact absurd rfl hne
      | cons a l => rfl
    rw [formattedInstrument]
    simp only [hempty, Bool.false_eq_true, if_false, hlook]
  · intro photometryRef m hlook
    rw [formattedPhotRef]
    simp only [hlook]

/-- Witness for C9's amended theorem: a nonempty telescope mapping lacking
id 7 makes `formattedInstrument` fail, and an instrument mapping lacking
id 3 makes `formattedPhotRef` fail. -/
theorem fk_lookup_fails_loudly_witness :
    (([(5, "P48")] : List (Nat × String)) ≠ [] ∧
      formattedInstrument demoInstrument (some [(5, "P48")]) = none) ∧
    (formattedPhotRef ⟨"srcA", 3, ["=public_group_id"], "photometry/a.csv"⟩
      (some [(9, "SEDM")]) = none) :=
  ⟨⟨by decide,
    fk_lookup_fails_loudly.1 demoInstrument [(5, "P48")] (by decide) (by rfl)⟩,
   fk_lookup_fails_loudly.2 ⟨"srcA", 3, ["=public_group_id"], "photometry/a.csv"⟩
     [(9, "SEDM")] (by rfl)⟩
